import Mathlib

/-!
Shallow embedding of the TerraTag `LandRegistry` Solidity contract
(src/TerraTagContracts/src/LandRegistry.sol) and proofs of the ledger's
specified properties.

Modelling conventions:
* `Address` is `Nat`; `0` plays the role of `address(0)`, the "unowned"
  sentinel.  On chain `msg.sender` is never `address(0)`, so trace-level
  theorems assume every operation's caller is nonzero.
* Solidity mappings become total functions with the zero value as default
  (`squareOwner` defaults to `0`, `pendingSwaps` to the zero struct).
* `keccak256(abi.encodePacked(a, b, s1, s2))` with two fixed-width addresses
  followed by two packed strings is modelled, under the standard
  collision-free idealisation of keccak, by the tuple `(a, b, s1 ++ s2)`:
  the two address fields occupy fixed positions while the two strings are
  concatenated without length prefixes, so packed encodings coincide exactly
  when the addresses agree and the string concatenations agree.
* A `require(cond, msg)` failure is a revert; each operation returns
  `(some err, s)` with the state at the failure point, mirroring the source
  text order (in this contract every `require` precedes every write).
* `emit` is modelled by appending to an event log kept in the state.
-/

namespace LandRegistry

abbrev Address : Type := Nat

/-- Pointwise update of a map modelled as a total function. -/
def upd {α β : Type} [DecidableEq α] (f : α → β) (a : α) (b : β) : α → β :=
  fun x => if x = a then b else f x

/-- The `SwapRequest` struct of the contract. -/
structure SwapRequest where
  requester : Address
  counterparty : Address
  requesterSquare : String
  counterpartySquare : String
  counterpartyApproved : Bool
deriving DecidableEq, Repr

/-- The zero value of `SwapRequest`: what a Solidity mapping returns for an
absent key, and what `delete` resets an entry to. -/
def emptySwapRequest : SwapRequest :=
  { requester := 0, counterparty := 0, requesterSquare := "",
    counterpartySquare := "", counterpartyApproved := false }

/-- Key of the `pendingSwaps` mapping: the packed-encoding content
`(addr, addr, s1 ++ s2)` standing for
`keccak256(abi.encodePacked(addr1, addr2, s1, s2))`. -/
abbrev SwapId : Type := Address × Address × String

/-- The swap-id fingerprint computed inside `swap`. -/
def swapKey (a b : Address) (s1 s2 : String) : SwapId := (a, b, s1 ++ s2)

/-- The contract's events. -/
inductive Event where
  | claimed (owner : Address) (squareName : String)
  | released (previousOwner : Address) (squareName : String)
  | swapped (user1 user2 : Address) (squareName1 squareName2 : String)
  | userDeleted (user : Address)
  | swapRequested (requester counterparty : Address)
      (requesterSquare counterpartySquare : String)
deriving DecidableEq, Repr

/-- The full storage of the contract plus the emitted event log. -/
structure State where
  squareOwner : String → Address
  userInventory : Address → List String
  pendingSwaps : SwapId → SwapRequest
  events : List Event

/-- Storage of a freshly deployed contract: all mappings zero, no events. -/
def initState : State :=
  { squareOwner := fun _ => 0, userInventory := fun _ => [],
    pendingSwaps := fun _ => emptySwapRequest, events := [] }

/-- Distinct revert reasons of the contract, one per `require` message. -/
inductive LRError where
  | emptySquareName       -- "Square name cannot be empty"
  | alreadyClaimed        -- "Square already claimed"
  | notOwner              -- "Caller is not the owner"
  | notClaimed            -- "Square is not claimed"
  | zeroCounterparty      -- "Cannot swap with the zero address"
  | selfSwap              -- "Cannot swap with yourself"
  | callerNotSquareOwner  -- "You do not own your specified square"
  | otherNotSquareOwner   -- "The other user does not own their specified square"
  | notRequester          -- "Not the swap requester"
deriving DecidableEq, Repr

/-- First index holding `sq`, mirroring the scan loop of
`_removeFromInventory` (keccak equality of strings is string equality). -/
def findSqIdx : List String → String → Option Nat
  | [], _ => none
  | x :: xs, sq => if x = sq then some 0 else (findSqIdx xs sq).map (· + 1)

/-- Model of `_removeFromInventory` on one inventory array: find the first occurrence,
overwrite it with the last element, pop the last element; no-op when the
square is absent. -/
def removeFromInventory (inv : List String) (sq : String) : List String :=
  match findSqIdx inv sq with
  | none => inv
  | some i => (inv.set i (inv.getLastD "")).dropLast

/-- Model of `claim(squareName)` called with `msg.sender = claimant`. -/
def claim (s : State) (claimant : Address) (squareName : String) :
    Option LRError × State :=
  if squareName = "" then (some .emptySquareName, s)
  else
    let currentOwner := s.squareOwner squareName
    if currentOwner = 0 then
      (none,
        { s with
          squareOwner := upd s.squareOwner squareName claimant,
          userInventory := upd s.userInventory claimant
            (s.userInventory claimant ++ [squareName]),
          events := s.events ++ [.claimed claimant squareName] })
    else (some .alreadyClaimed, s)

/-- Model of `release(squareName)` called with `msg.sender = caller`. -/
def release (s : State) (caller : Address) (squareName : String) :
    Option LRError × State :=
  if squareName = "" then (some .emptySquareName, s)
  else
    let currentOwner := s.squareOwner squareName
    if currentOwner ≠ caller then (some .notOwner, s)
    else if currentOwner = 0 then (some .notClaimed, s)
    else
      (none,
        { s with
          squareOwner := upd s.squareOwner squareName 0,
          userInventory := upd s.userInventory caller
            (removeFromInventory (s.userInventory caller) squareName),
          events := s.events ++ [.released caller squareName] })

/-- Model of `swap(mySquareName, theirSquareName, otherUser)` with
`msg.sender = caller`: validates, then either executes a matching reciprocal
pending request or records a new pending request. -/
def swap (s : State) (caller : Address)
    (mySquareName theirSquareName : String) (otherUser : Address) :
    Option LRError × State :=
  if mySquareName = "" then (some .emptySquareName, s)
  else if theirSquareName = "" then (some .emptySquareName, s)
  else if otherUser = 0 then (some .zeroCounterparty, s)
  else if otherUser = caller then (some .selfSwap, s)
  else if s.squareOwner mySquareName ≠ caller then
    (some .callerNotSquareOwner, s)
  else if s.squareOwner theirSquareName ≠ otherUser then
    (some .otherNotSquareOwner, s)
  else
    let swapId := swapKey caller otherUser mySquareName theirSquareName
    let reverseSwapId := swapKey otherUser caller theirSquareName mySquareName
    if (s.pendingSwaps reverseSwapId).requester = otherUser then
      -- counterparty already requested this exact swap: execute it
      let inv1 := upd s.userInventory caller
        (removeFromInventory (s.userInventory caller) mySquareName)
      let inv2 := upd inv1 otherUser
        (removeFromInventory (inv1 otherUser) theirSquareName)
      let inv3 := upd inv2 caller (inv2 caller ++ [theirSquareName])
      let inv4 := upd inv3 otherUser (inv3 otherUser ++ [mySquareName])
      (none,
        { squareOwner :=
            upd (upd s.squareOwner mySquareName otherUser) theirSquareName caller,
          userInventory := inv4,
          pendingSwaps := upd s.pendingSwaps reverseSwapId emptySwapRequest,
          events := s.events ++
            [.swapped caller otherUser mySquareName theirSquareName] })
    else
      (none,
        { s with
          pendingSwaps := upd s.pendingSwaps swapId
            { requester := caller, counterparty := otherUser,
              requesterSquare := mySquareName,
              counterpartySquare := theirSquareName,
              counterpartyApproved := false },
          events := s.events ++
            [.swapRequested caller otherUser mySquareName theirSquareName] })

/-- Model of `cancelSwapRequest(swapId)` with `msg.sender = caller`. -/
def cancelSwapRequest (s : State) (caller : Address) (swapId : SwapId) :
    Option LRError × State :=
  if (s.pendingSwaps swapId).requester ≠ caller then (some .notRequester, s)
  else
    (none, { s with pendingSwaps := upd s.pendingSwaps swapId emptySwapRequest })

/-- The release loop of `deleteUserAndReleaseLands`: walk the given square
names in the order the contract visits them, and for each square still owned
by `user`, zero its owner and emit `Released`. -/
def releaseLoop (user : Address) :
    List String → (String → Address) → List Event →
    (String → Address) × List Event
  | [], owner, evs => (owner, evs)
  | sq :: rest, owner, evs =>
    if owner sq = user then
      releaseLoop user rest (upd owner sq 0) (evs ++ [.released user sq])
    else
      releaseLoop user rest owner evs

/-- Model of `deleteUserAndReleaseLands()` with `msg.sender = user`: release (in
reverse inventory order) every inventory square still owned by the user,
then delete the whole inventory array and emit `UserDeleted`. -/
def deleteUserAndReleaseLands (s : State) (user : Address) :
    Option LRError × State :=
  let res := releaseLoop user (s.userInventory user).reverse
    s.squareOwner s.events
  (none,
    { squareOwner := res.1,
      userInventory := upd s.userInventory user [],
      pendingSwaps := s.pendingSwaps,
      events := res.2 ++ [.userDeleted user] })

/-- One external call to the contract, tagged with its `msg.sender`. -/
inductive Op where
  | claim (caller : Address) (squareName : String)
  | release (caller : Address) (squareName : String)
  | swap (caller : Address) (mySquareName theirSquareName : String)
      (otherUser : Address)
  | cancel (caller : Address) (swapId : SwapId)
  | deleteUser (caller : Address)

/-- The `msg.sender` of an operation. -/
def opCaller : Op → Address
  | .claim c _ => c
  | .release c _ => c
  | .swap c _ _ _ => c
  | .cancel c _ => c
  | .deleteUser c => c

/-- Dispatch one call against the current storage. -/
def applyOp (s : State) : Op → Option LRError × State
  | .claim c sq => claim s c sq
  | .release c sq => release s c sq
  | .swap c my their other => swap s c my their other
  | .cancel c i => cancelSwapRequest s c i
  | .deleteUser c => deleteUserAndReleaseLands s c

/-- Run a sequence of calls from a starting storage; failed calls revert and
leave the storage unchanged. -/
def run (s : State) (ops : List Op) : State :=
  ops.foldl (fun s op => (applyOp s op).2) s

/-- A pending swap offer "exists" at a key exactly when the stored struct is
not the zero struct, witnessed by its `requester` field (a genuine request's
requester is the caller, which on chain is never the zero address). -/
def offerPending (s : State) (i : SwapId) : Prop :=
  (s.pendingSwaps i).requester ≠ 0

/-- The ledger's central consistency invariant, strengthened for induction:
membership in a (nonzero) owner's inventory coincides with the ownership
map, every inventory list is duplicate-free, and the zero address owns no
inventory. -/
def Good (s : State) : Prop :=
  (∀ o : Address, o ≠ 0 → ∀ sq, sq ∈ s.userInventory o ↔ s.squareOwner sq = o)
  ∧ (∀ o : Address, (s.userInventory o).Nodup)
  ∧ s.userInventory 0 = []

/-- Concrete two-user ledger: user 1 owns "x", user 2 owns "y". -/
def twoUserState : State := run initState [Op.claim 1 "x", Op.claim 2 "y"]

/-- The scan `findSqIdx` misses exactly when the square is absent. -/
theorem findSqIdx_eq_none {l : List String} {sq : String} :
    findSqIdx l sq = none ↔ sq ∉ l := by
  induction l with
  | nil => simp [findSqIdx]
  | cons x xs ih =>
    by_cases hx : x = sq
    · subst hx
      simp [findSqIdx]
    · simp [findSqIdx, hx, Option.map_eq_none', ih, Ne.symm hx]

/-- A hit of `findSqIdx` decomposes the list at the first occurrence. -/
theorem findSqIdx_some {l : List String} {sq : String} {i : Nat}
    (h : findSqIdx l sq = some i) :
    ∃ l₁ l₂, l = l₁ ++ sq :: l₂ ∧ l₁.length = i ∧ sq ∉ l₁ := by
  induction l generalizing i with
  | nil => simp [findSqIdx] at h
  | cons x xs ih =>
    by_cases hx : x = sq
    · subst hx
      simp [findSqIdx] at h
      exact ⟨[], xs, by simp, by simp [← h], by simp⟩
    · simp [findSqIdx, hx, Option.map_eq_some'] at h
      obtain ⟨j, hj, hij⟩ := h
      obtain ⟨l₁, l₂, hl, hlen, hnm⟩ := ih hj
      exact ⟨x :: l₁, l₂, by simp [hl], by simp [hlen, hij],
        by simp [hnm, Ne.symm hx]⟩

/-- Removing an absent square is a no-op. -/
theorem rm_eq_of_not_mem {l : List String} {sq : String} (h : sq ∉ l) :
    removeFromInventory l sq = l := by
  unfold removeFromInventory
  rw [findSqIdx_eq_none.mpr h]

/-- Swap-with-last-then-pop removal is, up to permutation, erasure of the
first occurrence. -/
theorem rm_perm_erase {l : List String} {sq : String} (h : sq ∈ l) :
    List.Perm (removeFromInventory l sq) (l.erase sq) := by
  rcases hf : findSqIdx l sq with _ | i
  · exact absurd (findSqIdx_eq_none.mp hf) (by simp [h])
  · obtain ⟨l₁, l₂, hl, hlen, hnm⟩ := findSqIdx_some hf
    subst hl
    rw [List.erase_append_right _ hnm, List.erase_cons_head]
    simp only [removeFromInventory, hf]
    rcases l₂.eq_nil_or_concat with h2 | ⟨l₃, b, h3⟩
    · subst h2
      have hlast : (l₁ ++ [sq]).getLastD "" = sq := List.getLastD_concat _ _ _
      rw [hlast, List.set_append_right _ _ (le_of_eq hlen), ← hlen,
        Nat.sub_self, List.set_cons_zero, List.dropLast_concat]
      simp
    · rw [List.concat_eq_append] at h3
      subst h3
      have hlast : (l₁ ++ sq :: (l₃ ++ [b])).getLastD "" = b := by
        have hL : l₁ ++ sq :: (l₃ ++ [b]) = (l₁ ++ sq :: l₃) ++ [b] := by simp
        rw [hL, List.getLastD_concat]
      rw [hlast, List.set_append_right _ _ (le_of_eq hlen), ← hlen,
        Nat.sub_self, List.set_cons_zero]
      have hdrop : (l₁ ++ b :: (l₃ ++ [b])).dropLast = l₁ ++ b :: l₃ := by
        have hL : l₁ ++ b :: (l₃ ++ [b]) = (l₁ ++ b :: l₃) ++ [b] := by simp
        rw [hL, List.dropLast_concat]
      rw [hdrop]
      exact List.Perm.append_left l₁ (List.perm_append_singleton b l₃).symm

/-- Removal preserves duplicate-freedom. -/
theorem rm_nodup {l : List String} {sq : String} (hnd : l.Nodup) :
    (removeFromInventory l sq).Nodup := by
  by_cases h : sq ∈ l
  · exact ((rm_perm_erase h).nodup_iff).mpr (hnd.erase sq)
  · rw [rm_eq_of_not_mem h]; exact hnd

/-- Membership after removal, on a duplicate-free inventory. -/
theorem rm_mem_iff {l : List String} {sq x : String} (hnd : l.Nodup)
    (h : sq ∈ l) :
    x ∈ removeFromInventory l sq ↔ x ∈ l ∧ x ≠ sq := by
  rw [(rm_perm_erase h).mem_iff, hnd.mem_erase_iff]
  tauto

/-- The scan `findSqIdx` on an inventory ending in its only occurrence of `sq`. -/
theorem findSqIdx_append_self {l : List String} {sq : String} (h : sq ∉ l) :
    findSqIdx (l ++ [sq]) sq = some l.length := by
  induction l with
  | nil => simp [findSqIdx]
  | cons x xs ih =>
    have hx : x ≠ sq := by intro hx; exact h (hx ▸ List.mem_cons_self x xs)
    simp only [List.cons_append, findSqIdx, hx, if_false, List.append_eq]
    rw [ih (fun hm => h (List.mem_cons_of_mem x hm))]
    simp

/-- Removing a square that sits only at the end of the inventory restores
the previous inventory exactly (the claim/release round trip). -/
theorem rm_append_self {l : List String} {sq : String} (h : sq ∉ l) :
    removeFromInventory (l ++ [sq]) sq = l := by
  simp only [removeFromInventory, findSqIdx_append_self h]
  rw [List.getLastD_concat, List.set_append_right _ _ le_rfl,
    Nat.sub_self, List.set_cons_zero, List.dropLast_concat]

@[simp] theorem upd_eq {α β : Type} [DecidableEq α] (f : α → β) (a : α)
    (b : β) : upd f a b a = b := by simp [upd]

theorem upd_ne {α β : Type} [DecidableEq α] (f : α → β) (a : α) (b : β)
    {x : α} (h : x ≠ a) : upd f a b x = f x := by simp [upd, h]

/-- The operation `claim` preserves the ledger invariant (for a nonzero caller). -/
theorem good_claim {s : State} {c : Address} {sq : String}
    (hg : Good s) (hc : c ≠ 0) : Good (claim s c sq).2 := by
  obtain ⟨hinv, hnd, h0⟩ := hg
  by_cases hsq : sq = ""
  · simpa [claim, hsq] using ⟨hinv, hnd, h0⟩
  by_cases how : s.squareOwner sq = 0
  case neg => simpa [claim, hsq, how] using ⟨hinv, hnd, h0⟩
  have hnotin : ∀ o : Address, o ≠ 0 → sq ∉ s.userInventory o := by
    intro o ho hm
    have hx := (hinv o ho sq).mp hm
    rw [how] at hx
    exact ho hx.symm
  have hres : (claim s c sq).2 =
      { s with
        squareOwner := upd s.squareOwner sq c,
        userInventory := upd s.userInventory c
          (s.userInventory c ++ [sq]),
        events := s.events ++ [.claimed c sq] } := by
    simp [claim, hsq, how]
  rw [hres]
  unfold Good
  dsimp only
  refine ⟨?_, ?_, ?_⟩
  · intro o ho x
    by_cases hoc : o = c
    · subst hoc
      by_cases hx : x = sq
      · subst hx
        simp [upd]
      · simp only [upd_eq, upd_ne _ _ _ hx, List.mem_append,
          List.mem_singleton, hx, or_false]
        exact hinv o ho x
    · rw [upd_ne _ _ _ (fun h => hoc h)]
      by_cases hx : x = sq
      · subst hx
        rw [upd_eq]
        constructor
        · intro hm
          exact absurd hm (hnotin o ho)
        · intro h
          exact absurd h.symm hoc
      · rw [upd_ne _ _ _ hx]
        exact hinv o ho x
  · intro o
    by_cases hoc : o = c
    · subst hoc
      rw [upd_eq]
      refine List.Nodup.append (hnd o) (by simp) ?_
      simp [List.disjoint_singleton]
      by_cases ho : o = 0
      · subst ho
        simp [h0]
      · exact fun hm => (hnotin o ho) hm
    · rw [upd_ne _ _ _ hoc]
      exact hnd o
  · rw [upd_ne _ _ _ (fun h => hc h.symm)]
    exact h0

/-- The operation `release` preserves the ledger invariant (for a nonzero caller). -/
theorem good_release {s : State} {c : Address} {sq : String}
    (hg : Good s) (hc : c ≠ 0) : Good (release s c sq).2 := by
  obtain ⟨hinv, hnd, h0⟩ := hg
  by_cases hsq : sq = ""
  · simpa [release, hsq] using ⟨hinv, hnd, h0⟩
  by_cases how : s.squareOwner sq = c
  case neg => simpa [release, hsq, how] using ⟨hinv, hnd, h0⟩
  have hmem : sq ∈ s.userInventory c := (hinv c hc sq).mpr how
  have hres : (release s c sq).2 =
      { s with
        squareOwner := upd s.squareOwner sq 0,
        userInventory := upd s.userInventory c
          (removeFromInventory (s.userInventory c) sq),
        events := s.events ++ [.released c sq] } := by
    simp [release, hsq, how, hc]
  rw [hres]
  unfold Good
  dsimp only
  refine ⟨?_, ?_, ?_⟩
  · intro o ho x
    by_cases hoc : o = c
    · subst hoc
      rw [upd_eq, rm_mem_iff (hnd o) hmem]
      by_cases hx : x = sq
      · subst hx
        simp only [upd_eq]
        constructor
        · intro h
          exact absurd rfl h.2
        · intro h
          exact absurd h.symm ho
      · rw [upd_ne _ _ _ hx]
        simp only [hx, ne_eq, not_false_eq_true, and_true]
        exact hinv o ho x
    · rw [upd_ne _ _ _ hoc]
      by_cases hx : x = sq
      · subst hx
        rw [upd_eq]
        constructor
        · intro hm
          have := (hinv o ho x).mp hm
          rw [how] at this
          exact absurd this.symm hoc
        · intro h
          exact absurd h.symm ho
      · rw [upd_ne _ _ _ hx]
        exact hinv o ho x
  · intro o
    by_cases hoc : o = c
    · subst hoc
      rw [upd_eq]
      exact rm_nodup (hnd o)
    · rw [upd_ne _ _ _ hoc]
      exact hnd o
  · rw [upd_ne _ _ _ (fun h => hc h.symm)]
    exact h0

/-- The operation `cancelSwapRequest` preserves the ledger invariant. -/
theorem good_cancel {s : State} {c : Address} {i : SwapId}
    (hg : Good s) : Good (cancelSwapRequest s c i).2 := by
  obtain ⟨hinv, hnd, h0⟩ := hg
  by_cases h : (s.pendingSwaps i).requester = c
  · simpa [cancelSwapRequest, h] using ⟨hinv, hnd, h0⟩
  · simpa [cancelSwapRequest, h] using ⟨hinv, hnd, h0⟩

/-- The operation `swap` preserves the ledger invariant (for a nonzero caller). -/
theorem good_swap {s : State} {c : Address} {my their : String}
    {other : Address} (hg : Good s) (hc : c ≠ 0) :
    Good (swap s c my their other).2 := by
  obtain ⟨hinv, hnd, h0⟩ := hg
  by_cases h1 : my = ""
  · simpa [swap, h1] using ⟨hinv, hnd, h0⟩
  by_cases h2 : their = ""
  · simpa [swap, h1, h2] using ⟨hinv, hnd, h0⟩
  by_cases h3 : other = 0
  · simpa [swap, h1, h2, h3] using ⟨hinv, hnd, h0⟩
  by_cases h4 : other = c
  · simpa [swap, h1, h2, h3, h4, hc] using ⟨hinv, hnd, h0⟩
  by_cases h5 : s.squareOwner my = c
  case neg => simpa [swap, h1, h2, h3, h4, h5] using ⟨hinv, hnd, h0⟩
  by_cases h6 : s.squareOwner their = other
  case neg => simpa [swap, h1, h2, h3, h4, h5, h6] using ⟨hinv, hnd, h0⟩
  by_cases h7 :
    (s.pendingSwaps (swapKey other c their my)).requester = other
  case neg =>
    have hres : (swap s c my their other).2 =
        { s with
          pendingSwaps := upd s.pendingSwaps
            (swapKey c other my their)
            { requester := c, counterparty := other, requesterSquare := my,
              counterpartySquare := their, counterpartyApproved := false },
          events := s.events ++ [.swapRequested c other my their] } := by
      simp [swap, h1, h2, h3, h4, h5, h6, h7]
    rw [hres]
    exact ⟨hinv, hnd, h0⟩
  case pos =>
    have hco : c ≠ other := fun h => h4 h.symm
    have hmt : my ≠ their := by
      intro h
      rw [h, h6] at h5
      exact h4 h5
    have hmem_my : my ∈ s.userInventory c := (hinv c hc my).mpr h5
    have hmem_their : their ∈ s.userInventory other :=
      (hinv other h3 their).mpr h6
    have hnm_their_c : their ∉ s.userInventory c := by
      intro hm
      have := (hinv c hc their).mp hm
      rw [h6] at this
      exact h4 this
    have hnm_my_other : my ∉ s.userInventory other := by
      intro hm
      have := (hinv other h3 my).mp hm
      rw [h5] at this
      exact h4 this.symm
    have hres : (swap s c my their other).2 =
        { squareOwner := upd (upd s.squareOwner my other) their c,
          userInventory := upd (upd (upd (upd s.userInventory c
              (removeFromInventory (s.userInventory c) my)) other
              (removeFromInventory (s.userInventory other) their)) c
              (removeFromInventory (s.userInventory c) my ++ [their])) other
              (removeFromInventory (s.userInventory other) their ++ [my]),
          pendingSwaps := upd s.pendingSwaps (swapKey other c their my)
            emptySwapRequest,
          events := s.events ++ [.swapped c other my their] } := by
      simp only [swap, h1, h2, h3, h4, h5, h6, h7, if_false, if_true,
        ite_true, ite_false, ne_eq, not_false_eq_true, not_true_eq_false,
        if_neg, reduceIte]
      rw [upd_ne _ _ _ h4, upd_ne _ _ _ hco, upd_eq, upd_ne _ _ _ h4,
        upd_eq]
    rw [hres]
    unfold Good
    dsimp only
    refine ⟨?_, ?_, ?_⟩
    · intro o ho x
      by_cases ho1 : o = other
      · subst ho1
        rw [upd_eq]
        by_cases hx1 : x = their
        · subst hx1
          rw [upd_eq]
          simp only [List.mem_append, List.mem_singleton, hmt.symm,
            or_false]
          rw [rm_mem_iff (hnd o) hmem_their]
          simp [h4, hco]
        · by_cases hx2 : x = my
          · subst hx2
            rw [upd_ne _ _ _ hx1, upd_eq]
            simp
          · rw [upd_ne _ _ _ hx1, upd_ne _ _ _ hx2]
            simp only [List.mem_append, List.mem_singleton, hx2, or_false]
            rw [rm_mem_iff (hnd o) hmem_their]
            simp only [hx1, ne_eq, not_false_eq_true, and_true]
            exact hinv o ho x
      · by_cases ho2 : o = c
        · subst ho2
          rw [upd_ne _ _ _ ho1, upd_eq]
          by_cases hx1 : x = their
          · subst hx1
            rw [upd_eq]
            simp [rm_mem_iff (hnd o) hmem_my, hmt.symm]
          · by_cases hx2 : x = my
            · subst hx2
              rw [upd_ne _ _ _ hx1, upd_eq]
              simp only [List.mem_append, List.mem_singleton, hmt,
                or_false]
              rw [rm_mem_iff (hnd o) hmem_my]
              simp [h4, Ne.symm hco]
            · rw [upd_ne _ _ _ hx1, upd_ne _ _ _ hx2]
              simp only [List.mem_append, List.mem_singleton, hx1,
                or_false]
              rw [rm_mem_iff (hnd o) hmem_my]
              simp only [hx2, ne_eq, not_false_eq_true, and_true]
              exact hinv o ho x
        · rw [upd_ne _ _ _ ho1, upd_ne _ _ _ ho2, upd_ne _ _ _ ho1,
            upd_ne _ _ _ ho2]
          by_cases hx1 : x = their
          · subst hx1
            rw [upd_eq]
            constructor
            · intro hm
              have := (hinv o ho x).mp hm
              rw [h6] at this
              exact absurd this.symm ho1
            · intro h
              exact absurd h.symm ho2
          · by_cases hx2 : x = my
            · subst hx2
              rw [upd_ne _ _ _ hx1, upd_eq]
              constructor
              · intro hm
                have := (hinv o ho x).mp hm
                rw [h5] at this
                exact absurd this.symm ho2
              · intro h
                exact absurd h.symm ho1
            · rw [upd_ne _ _ _ hx1, upd_ne _ _ _ hx2]
              exact hinv o ho x
    · intro o
      by_cases ho1 : o = other
      · subst ho1
        rw [upd_eq]
        refine List.Nodup.append (rm_nodup (hnd o)) (by simp) ?_
        simp only [List.disjoint_singleton]
        intro hm
        exact hnm_my_other ((rm_mem_iff (hnd o) hmem_their).mp hm).1
      · by_cases ho2 : o = c
        · subst ho2
          rw [upd_ne _ _ _ ho1, upd_eq]
          refine List.Nodup.append (rm_nodup (hnd o)) (by simp) ?_
          simp only [List.disjoint_singleton]
          intro hm
          exact hnm_their_c ((rm_mem_iff (hnd o) hmem_my).mp hm).1
        · rw [upd_ne _ _ _ ho1, upd_ne _ _ _ ho2, upd_ne _ _ _ ho1,
            upd_ne _ _ _ ho2]
          exact hnd o
    · rw [upd_ne _ _ _ (fun h => h3 h.symm),
        upd_ne _ _ _ (fun h => hc h.symm),
        upd_ne _ _ _ (fun h => h3 h.symm),
        upd_ne _ _ _ (fun h => hc h.symm)]
      exact h0

/-- Final ownership map of the bulk-release loop: a square is zeroed exactly
when it is visited and the user still owned it on entry (later visits of an
already-zeroed square are skipped, so the threaded map needs no history). -/
theorem releaseLoop_owner (u : Address) :
    ∀ (l : List String) (owner : String → Address) (evs : List Event)
      (x : String),
    (releaseLoop u l owner evs).1 x =
      if owner x = u ∧ x ∈ l then 0 else owner x := by
  intro l
  induction l with
  | nil => intro owner evs x; simp [releaseLoop]
  | cons a rest ih =>
    intro owner evs x
    by_cases ha : owner a = u
    · rw [releaseLoop, if_pos ha, ih]
      by_cases hx : x = a
      · subst hx
        simp [upd_eq, ha]
      · rw [upd_ne _ _ _ hx]
        simp [hx, List.mem_cons]
    · rw [releaseLoop, if_neg ha, ih]
      by_cases hx : x = a
      · subst hx
        simp [ha]
      · simp [hx, List.mem_cons]

/-- The bulk-release loop only appends to the event log. -/
theorem releaseLoop_events_mono (u : Address) :
    ∀ (l : List String) (owner : String → Address) (evs : List Event),
    ∃ tail, (releaseLoop u l owner evs).2 = evs ++ tail := by
  intro l
  induction l with
  | nil => intro owner evs; exact ⟨[], by simp [releaseLoop]⟩
  | cons a rest ih =>
    intro owner evs
    by_cases ha : owner a = u
    · rw [releaseLoop, if_pos ha]
      obtain ⟨tail, ht⟩ := ih (upd owner a 0) (evs ++ [.released u a])
      exact ⟨[.released u a] ++ tail, by rw [ht]; simp⟩
    · rw [releaseLoop, if_neg ha]
      exact ih owner evs

/-- Every visited square still owned by the user gets a `Released` event. -/
theorem releaseLoop_released (u : Address) :
    ∀ (l : List String) (owner : String → Address) (evs : List Event)
      (sq : String), sq ∈ l → owner sq = u →
    Event.released u sq ∈ (releaseLoop u l owner evs).2 := by
  intro l
  induction l with
  | nil => intro owner evs sq h; simp at h
  | cons a rest ih =>
    intro owner evs sq hm hown
    by_cases hsq : sq = a
    · subst hsq
      rw [releaseLoop, if_pos hown]
      obtain ⟨tail, ht⟩ := releaseLoop_events_mono u rest (upd owner sq 0)
        (evs ++ [.released u sq])
      rw [ht]
      simp
    · have hm' : sq ∈ rest := by
        rcases List.mem_cons.mp hm with h | h
        · exact absurd h hsq
        · exact h
      by_cases ha : owner a = u
      · rw [releaseLoop, if_pos ha]
        exact ih _ _ sq hm' (by rw [upd_ne _ _ _ hsq]; exact hown)
      · rw [releaseLoop, if_neg ha]
        exact ih _ _ sq hm' hown

/-- The operation `deleteUserAndReleaseLands` preserves the ledger invariant (for a
nonzero caller). -/
theorem good_delete {s : State} {u : Address} (hg : Good s) (hu : u ≠ 0) :
    Good (deleteUserAndReleaseLands s u).2 := by
  obtain ⟨hinv, hnd, h0⟩ := hg
  unfold deleteUserAndReleaseLands Good
  dsimp only
  refine ⟨?_, ?_, ?_⟩
  · intro o ho x
    rw [releaseLoop_owner]
    by_cases hou : o = u
    · subst hou
      rw [upd_eq]
      simp only [List.not_mem_nil, false_iff]
      by_cases hx : s.squareOwner x = o
      · have hxm : x ∈ (s.userInventory o).reverse :=
          List.mem_reverse.mpr ((hinv o ho x).mpr hx)
        rw [if_pos ⟨hx, hxm⟩]
        exact fun h => ho h.symm
      · rw [if_neg (fun h => hx h.1)]
        exact hx
    · rw [upd_ne _ _ _ hou]
      by_cases hx : s.squareOwner x = u
      · have hxm : x ∈ (s.userInventory u).reverse :=
          List.mem_reverse.mpr ((hinv u hu x).mpr hx)
        rw [if_pos ⟨hx, hxm⟩]
        constructor
        · intro hm
          have := (hinv o ho x).mp hm
          rw [hx] at this
          exact absurd this.symm hou
        · intro h
          exact absurd h.symm ho
      · rw [if_neg (fun h => hx h.1)]
        exact hinv o ho x
  · intro o
    by_cases hou : o = u
    · subst hou; rw [upd_eq]; exact List.nodup_nil
    · rw [upd_ne _ _ _ hou]; exact hnd o
  · rw [upd_ne _ _ _ (fun h => hu h.symm)]
    exact h0

/-- Every single call with a nonzero sender preserves the invariant. -/
theorem good_applyOp {s : State} {op : Op} (hg : Good s)
    (hc : opCaller op ≠ 0) : Good (applyOp s op).2 := by
  cases op with
  | claim c sq => exact good_claim hg hc
  | release c sq => exact good_release hg hc
  | swap c my their other => exact good_swap hg hc
  | cancel c i => exact good_cancel hg
  | deleteUser c => exact good_delete hg hc

/-- The invariant holds in the deployment state. -/
theorem good_init : Good initState := by
  refine ⟨?_, ?_, ?_⟩
  · intro o ho sq
    simp only [initState, List.not_mem_nil, false_iff]
    exact fun h => ho h.symm
  · intro o
    simp [initState]
  · simp [initState]

/-- The invariant holds after any sequence of calls with nonzero senders. -/
theorem good_run {ops : List Op} (hc : ∀ op ∈ ops, opCaller op ≠ 0) :
    Good (run initState ops) := by
  suffices h : ∀ (ops : List Op) (s : State), Good s →
      (∀ op ∈ ops, opCaller op ≠ 0) → Good (run s ops) by
    exact h ops initState good_init hc
  intro ops
  induction ops with
  | nil => intro s hg _; exact hg
  | cons op rest ih =>
    intro s hg hall
    exact ih _ (good_applyOp hg (hall op (List.mem_cons_self op rest)))
      (fun o ho => hall o (List.mem_cons_of_mem op ho))

/-- Claim C1: for every sequence of operations from the initial empty ledger
(with genuine, i.e. nonzero, callers) and for every square `s` and owner `o`
(an owner identity is a nonzero account; `0` is the unowned sentinel),
`s ∈ inventory[o]` iff `ownership[s] = o`; in particular no square is ever in
more than one owner's inventory. -/
theorem claim_C1_inventory_ownership_consistency (ops : List Op)
    (hc : ∀ op ∈ ops, opCaller op ≠ 0) (o : Address) (ho : o ≠ 0)
    (sq : String) :
    (sq ∈ (run initState ops).userInventory o ↔
      (run initState ops).squareOwner sq = o)
    ∧ (∀ o₂ : Address, sq ∈ (run initState ops).userInventory o →
        sq ∈ (run initState ops).userInventory o₂ → o₂ = o) := by
  obtain ⟨hinv, hnd, h0⟩ := good_run hc
  refine ⟨hinv o ho sq, ?_⟩
  intro o₂ hm hm₂
  by_cases h2 : o₂ = 0
  · subst h2
    rw [h0] at hm₂
    exact absurd hm₂ (List.not_mem_nil sq)
  · have e1 := (hinv o ho sq).mp hm
    have e2 := (hinv o₂ h2 sq).mp hm₂
    rw [e1] at e2
    exact e2.symm

/-- Witness for C1 at the one-claim trace. -/
theorem claim_C1_witness :
    ("alpha" ∈ (run initState [Op.claim 1 "alpha"]).userInventory 1 ↔
      (run initState [Op.claim 1 "alpha"]).squareOwner "alpha" = 1)
    ∧ (∀ o₂ : Address,
        "alpha" ∈ (run initState [Op.claim 1 "alpha"]).userInventory 1 →
        "alpha" ∈ (run initState [Op.claim 1 "alpha"]).userInventory o₂ →
        o₂ = 1) :=
  claim_C1_inventory_ownership_consistency [Op.claim 1 "alpha"]
    (by
      intro op h
      rw [List.mem_singleton] at h
      subst h
      decide)
    1 (by decide) "alpha"

/-- Claim C3: every failing operation returns the ledger — ownership map,
inventories, pending-offer table and event log alike — exactly as it was
before the call. -/
theorem claim_C3_failed_op_state_unchanged (s : State) (op : Op)
    (e : LRError) (h : (applyOp s op).1 = some e) : (applyOp s op).2 = s := by
  cases op with
  | claim c sq =>
    by_cases hsq : sq = ""
    · simp [applyOp, claim, hsq]
    · by_cases how : s.squareOwner sq = 0
      · simp [applyOp, claim, hsq, how] at h
      · simp [applyOp, claim, hsq, how]
  | release c sq =>
    by_cases hsq : sq = ""
    · simp [applyOp, release, hsq]
    · by_cases how : s.squareOwner sq = c
      · by_cases hcz : c = 0
        · simp [applyOp, release, hsq, how, hcz]
        · simp [applyOp, release, hsq, how, hcz] at h
      · simp [applyOp, release, hsq, how]
  | swap c my their other =>
    by_cases h1 : my = ""
    · simp [applyOp, swap, h1]
    · by_cases h2 : their = ""
      · simp [applyOp, swap, h1, h2]
      · by_cases h3 : other = 0
        · simp [applyOp, swap, h1, h2, h3]
        · by_cases h4 : other = c
          · subst h4
            simp [applyOp, swap, h1, h2, h3]
          · by_cases h5 : s.squareOwner my = c
            · by_cases h6 : s.squareOwner their = other
              · by_cases h7 : (s.pendingSwaps
                    (swapKey other c their my)).requester = other
                · simp [applyOp, swap, h1, h2, h3, h4, h5, h6, h7] at h
                · simp [applyOp, swap, h1, h2, h3, h4, h5, h6, h7] at h
              · simp [applyOp, swap, h1, h2, h3, h4, h5, h6]
            · simp [applyOp, swap, h1, h2, h3, h4, h5]
  | cancel c i =>
    by_cases hr : (s.pendingSwaps i).requester = c
    · simp [applyOp, cancelSwapRequest, hr] at h
    · simp [applyOp, cancelSwapRequest, hr]
  | deleteUser c =>
    simp [applyOp, deleteUserAndReleaseLands] at h

/-- Witness for C3: releasing an unclaimed square from the empty ledger
fails and leaves the state unchanged. -/
theorem claim_C3_witness :
    (applyOp initState (Op.release 1 "a")).1 = some LRError.notOwner
    ∧ (applyOp initState (Op.release 1 "a")).2 = initState :=
  ⟨rfl, claim_C3_failed_op_state_unchanged initState (Op.release 1 "a")
    LRError.notOwner rfl⟩

/-- Counterexample to C4 as stated: on the empty ledger square "a" is
unowned, yet `release` by the (nonzero) caller `1` fails with `NotOwner`,
not `NotClaimed`: the owner check precedes the claimed check and the zero
owner never equals a genuine caller. -/
theorem claim_C4_counterexample :
    initState.squareOwner "a" = 0
    ∧ (release initState 1 "a").1 = some LRError.notOwner
    ∧ (release initState 1 "a").1 ≠ some LRError.notClaimed := by
  refine ⟨rfl, rfl, ?_⟩
  decide

/-- Claim C4 (amended): `release` fails with `NotOwner` whenever the caller
is not the recorded owner — both when the square is owned by someone else
and when it is unowned (any nonzero caller differs from the zero sentinel);
`NotClaimed` surfaces only for the unreachable zero caller on an unowned
square. -/
theorem claim_C4_release_errors (s : State) (caller : Address) (sq : String)
    (hsq : sq ≠ "") :
    (s.squareOwner sq ≠ caller → (release s caller sq).1 = some .notOwner)
    ∧ (s.squareOwner sq = 0 → caller ≠ 0 →
        (release s caller sq).1 = some .notOwner)
    ∧ (s.squareOwner sq = 0 → caller = 0 →
        (release s caller sq).1 = some .notClaimed) := by
  refine ⟨?_, ?_, ?_⟩
  · intro hne
    simp [release, hsq, hne]
  · intro h0 hcz
    have hne : s.squareOwner sq ≠ caller := by
      rw [h0]
      exact fun h => hcz h.symm
    simp [release, hsq, hne]
  · intro h0 hcz
    subst hcz
    simp [release, hsq, h0]

/-- Witness for C4 (amended) on the empty ledger. -/
theorem claim_C4_witness :
    (release initState 1 "a").1 = some LRError.notOwner
    ∧ (release initState 0 "a").1 = some LRError.notClaimed :=
  ⟨(claim_C4_release_errors initState 1 "a" (by decide)).2.1 rfl (by decide),
   (claim_C4_release_errors initState 0 "a" (by decide)).2.2 rfl rfl⟩

/-- Claim C8: `claim` on a non-empty square name succeeds iff the square is
unowned, setting its owner to the claimant and appending it to the
claimant's inventory; on an owned square it always fails with
`AlreadyClaimed` and leaves the state unchanged, whoever claims. -/
theorem claim_C8_claim_iff_unowned (s : State) (claimant : Address)
    (sq : String) (hsq : sq ≠ "") :
    (s.squareOwner sq = 0 →
      (claim s claimant sq).1 = none
      ∧ (claim s claimant sq).2.squareOwner sq = claimant
      ∧ (claim s claimant sq).2.userInventory claimant =
          s.userInventory claimant ++ [sq])
    ∧ (s.squareOwner sq ≠ 0 →
      (claim s claimant sq).1 = some .alreadyClaimed
      ∧ (claim s claimant sq).2 = s) := by
  constructor
  · intro h0
    simp [claim, hsq, h0, upd_eq]
  · intro h0
    simp [claim, hsq, h0]

/-- Witness for C8: a fresh claim on the empty ledger and a rejected
re-claim. -/
theorem claim_C8_witness :
    ((claim initState 1 "a").1 = none
      ∧ (claim initState 1 "a").2.squareOwner "a" = 1
      ∧ (claim initState 1 "a").2.userInventory 1 =
          initState.userInventory 1 ++ ["a"])
    ∧ ((claim (claim initState 1 "a").2 2 "a").1 =
          some LRError.alreadyClaimed
      ∧ (claim (claim initState 1 "a").2 2 "a").2 =
          (claim initState 1 "a").2) :=
  ⟨(claim_C8_claim_iff_unowned initState 1 "a" (by decide)).1 rfl,
   (claim_C8_claim_iff_unowned (claim initState 1 "a").2 2 "a"
      (by decide)).2 (by decide)⟩

/-- Claim C9: from any state where `sq` is unowned and absent from `A`'s
inventory (`A` a genuine nonzero account, `sq` a valid non-empty name),
`claim(sq, A)` then `release(sq, A)` both succeed and return the ledger to a
state where `sq` is unowned and not in `A`'s inventory — indeed `A`'s
inventory is restored exactly. -/
theorem claim_C9_claim_release_round_trip (s : State) (A : Address)
    (sq : String) (hsq : sq ≠ "") (hA : A ≠ 0)
    (h0 : s.squareOwner sq = 0) (hni : sq ∉ s.userInventory A) :
    (claim s A sq).1 = none
    ∧ (release (claim s A sq).2 A sq).1 = none
    ∧ (release (claim s A sq).2 A sq).2.squareOwner sq = 0
    ∧ (release (claim s A sq).2 A sq).2.userInventory A =
        s.userInventory A
    ∧ sq ∉ (release (claim s A sq).2 A sq).2.userInventory A := by
  have hclaim : claim s A sq =
      (none,
        { s with
          squareOwner := upd s.squareOwner sq A,
          userInventory := upd s.userInventory A
            (s.userInventory A ++ [sq]),
          events := s.events ++ [.claimed A sq] }) := by
    simp [claim, hsq, h0]
  rw [hclaim]
  have hrel : (release
      ({ s with
          squareOwner := upd s.squareOwner sq A,
          userInventory := upd s.userInventory A
            (s.userInventory A ++ [sq]),
          events := s.events ++ [.claimed A sq] } : State) A sq).2.userInventory
      = upd (upd s.userInventory A (s.userInventory A ++ [sq])) A
          (removeFromInventory (s.userInventory A ++ [sq]) sq) := by
    simp [release, hsq, upd_eq, hA]
  refine ⟨rfl, ?_, ?_, ?_, ?_⟩
  · simp [release, hsq, upd_eq, hA]
  · simp [release, hsq, upd_eq, hA]
  · rw [hrel, upd_eq, rm_append_self hni]
  · rw [hrel, upd_eq, rm_append_self hni]
    exact hni

/-- Witness for C9 on the empty ledger. -/
theorem claim_C9_witness :
    (claim initState 1 "a").1 = none
    ∧ (release (claim initState 1 "a").2 1 "a").1 = none
    ∧ (release (claim initState 1 "a").2 1 "a").2.squareOwner "a" = 0
    ∧ (release (claim initState 1 "a").2 1 "a").2.userInventory 1 =
        initState.userInventory 1
    ∧ "a" ∉ (release (claim initState 1 "a").2 1 "a").2.userInventory 1 :=
  claim_C9_claim_release_round_trip initState 1 "a" (by decide) (by decide)
    rfl (by decide)

/-- Claim C10: `deleteUserAndReleaseLands` leaves the pending-offer table
untouched — every offer, including those requested by the deleted user,
is exactly as pending after the call as before. -/
theorem claim_C10_delete_preserves_offers (s : State) (u : Address) :
    (deleteUserAndReleaseLands s u).2.pendingSwaps = s.pendingSwaps
    ∧ (∀ i : SwapId,
        offerPending (deleteUserAndReleaseLands s u).2 i ↔
          offerPending s i) :=
  ⟨rfl, fun _ => Iff.rfl⟩

/-- Claim C5: `deleteUserAndReleaseLands` never rejects; it zeroes every
inventory square the caller still owns (emitting `Released` for each),
merely skips squares whose ownership drifted elsewhere, always empties the
caller's inventory, and emits `UserDeleted`. -/
theorem claim_C5_delete_user_bulk_release (s : State) (u : Address) :
    (deleteUserAndReleaseLands s u).1 = none
    ∧ (deleteUserAndReleaseLands s u).2.userInventory u = []
    ∧ (∀ sq ∈ s.userInventory u, s.squareOwner sq = u →
        (deleteUserAndReleaseLands s u).2.squareOwner sq = 0
        ∧ Event.released u sq ∈ (deleteUserAndReleaseLands s u).2.events)
    ∧ (∀ sq, s.squareOwner sq ≠ u →
        (deleteUserAndReleaseLands s u).2.squareOwner sq =
          s.squareOwner sq)
    ∧ Event.userDeleted u ∈ (deleteUserAndReleaseLands s u).2.events := by
  unfold deleteUserAndReleaseLands
  dsimp only
  refine ⟨rfl, upd_eq _ _ _, ?_, ?_, ?_⟩
  · intro sq hm hown
    constructor
    · rw [releaseLoop_owner,
        if_pos ⟨hown, List.mem_reverse.mpr hm⟩]
    · exact List.mem_append_left _
        (releaseLoop_released u _ _ _ sq (List.mem_reverse.mpr hm) hown)
  · intro sq hown
    rw [releaseLoop_owner, if_neg (fun h => hown h.1)]
  · exact List.mem_append_right _ (List.mem_singleton_self _)

/-- Witness for C5: a user owning "p" and "q" deletes their account while
"r" belongs to someone else. -/
theorem claim_C5_witness :
    (deleteUserAndReleaseLands
        (run initState [Op.claim 1 "p", Op.claim 1 "q", Op.claim 2 "r"])
        1).1 = none
    ∧ (deleteUserAndReleaseLands
        (run initState [Op.claim 1 "p", Op.claim 1 "q", Op.claim 2 "r"])
        1).2.userInventory 1 = []
    ∧ (deleteUserAndReleaseLands
        (run initState [Op.claim 1 "p", Op.claim 1 "q", Op.claim 2 "r"])
        1).2.squareOwner "p" = 0
    ∧ Event.released 1 "p" ∈ (deleteUserAndReleaseLands
        (run initState [Op.claim 1 "p", Op.claim 1 "q", Op.claim 2 "r"])
        1).2.events
    ∧ (deleteUserAndReleaseLands
        (run initState [Op.claim 1 "p", Op.claim 1 "q", Op.claim 2 "r"])
        1).2.squareOwner "r" =
        (run initState [Op.claim 1 "p", Op.claim 1 "q", Op.claim 2 "r"]
          : State).squareOwner "r"
    ∧ Event.userDeleted 1 ∈ (deleteUserAndReleaseLands
        (run initState [Op.claim 1 "p", Op.claim 1 "q", Op.claim 2 "r"])
        1).2.events := by
  obtain ⟨w1, w2, w3, w4, w5⟩ := claim_C5_delete_user_bulk_release
    (run initState [Op.claim 1 "p", Op.claim 1 "q", Op.claim 2 "r"]) 1
  obtain ⟨w3a, w3b⟩ := w3 "p" (by decide) (by decide)
  exact ⟨w1, w2, w3a, w3b, w4 "r" (by decide), w5⟩

/-- Claim C7: a swap call commits an exchange only when, at call time, the
caller owns their named square and the counterparty owns theirs; if either
current ownership fails to match, the call fails and changes nothing, so a
stale offer can never execute against drifted ownership. -/
theorem claim_C7_commit_validates_ownership (s : State) (c other : Address)
    (my their : String) :
    ((swap s c my their other).2.events =
        s.events ++ [Event.swapped c other my their] →
      s.squareOwner my = c ∧ s.squareOwner their = other)
    ∧ ((s.squareOwner my ≠ c ∨ s.squareOwner their ≠ other) →
      (∃ e, (swap s c my their other).1 = some e)
      ∧ (swap s c my their other).2 = s) := by
  have hfail : (s.squareOwner my ≠ c ∨ s.squareOwner their ≠ other) →
      (∃ e, (swap s c my their other).1 = some e)
      ∧ (swap s c my their other).2 = s := by
    intro hd
    by_cases h1 : my = ""
    · exact ⟨⟨.emptySquareName, by simp [swap, h1]⟩, by simp [swap, h1]⟩
    by_cases h2 : their = ""
    · exact ⟨⟨.emptySquareName, by simp [swap, h1, h2]⟩,
        by simp [swap, h1, h2]⟩
    by_cases h3 : other = 0
    · exact ⟨⟨.zeroCounterparty, by simp [swap, h1, h2, h3]⟩,
        by simp [swap, h1, h2, h3]⟩
    by_cases h4 : other = c
    · subst h4
      exact ⟨⟨.selfSwap, by simp [swap, h1, h2, h3]⟩,
        by simp [swap, h1, h2, h3]⟩
    by_cases h5 : s.squareOwner my = c
    · have h6 : s.squareOwner their ≠ other := by
        rcases hd with h | h
        · exact absurd h5 h
        · exact h
      exact ⟨⟨.otherNotSquareOwner,
          by simp [swap, h1, h2, h3, h4, h5, h6]⟩,
        by simp [swap, h1, h2, h3, h4, h5, h6]⟩
    · exact ⟨⟨.callerNotSquareOwner, by simp [swap, h1, h2, h3, h4, h5]⟩,
        by simp [swap, h1, h2, h3, h4, h5]⟩
  refine ⟨?_, hfail⟩
  intro hev
  by_cases h5 : s.squareOwner my = c
  · by_cases h6 : s.squareOwner their = other
    · exact ⟨h5, h6⟩
    · obtain ⟨-, hs⟩ := hfail (Or.inr h6)
      rw [hs] at hev
      simp at hev
  · obtain ⟨-, hs⟩ := hfail (Or.inl h5)
    rw [hs] at hev
    simp at hev

/-- Witness for C7: committing the matched swap of "x" and "y" between
users 1 and 2 certifies both current ownerships. -/
theorem claim_C7_witness :
    (run initState [Op.claim 1 "x", Op.claim 2 "y", Op.swap 1 "x" "y" 2]
      : State).squareOwner "y" = 2
    ∧ (run initState [Op.claim 1 "x", Op.claim 2 "y", Op.swap 1 "x" "y" 2]
      : State).squareOwner "x" = 1 :=
  (claim_C7_commit_validates_ownership
    (run initState [Op.claim 1 "x", Op.claim 2 "y", Op.swap 1 "x" "y" 2])
    2 1 "y" "x").1 (by decide)

/-- Claim C2: with A owning `x` and B owning `y` (distinct nonzero users,
valid names, no matching reciprocal offer outstanding), A's
`swap(x, y, B)` records a pending offer without touching ownership, and
B's mirrored `swap(y, x, A)` commits: `x` goes to B, `y` goes to A, each
lands in the new owner's inventory, and the matched offer is gone. -/
theorem claim_C2_two_call_swap (s : State) (A B : Address) (x y : String)
    (hA : A ≠ 0) (hB : B ≠ 0) (hAB : A ≠ B) (hx : x ≠ "") (hy : y ≠ "")
    (hox : s.squareOwner x = A) (hoy : s.squareOwner y = B)
    (hnop : (s.pendingSwaps (swapKey B A y x)).requester ≠ B) :
    (swap s A x y B).1 = none
    ∧ (swap s A x y B).2.squareOwner = s.squareOwner
    ∧ (swap s A x y B).2.pendingSwaps (swapKey A B x y) =
        { requester := A, counterparty := B, requesterSquare := x,
          counterpartySquare := y, counterpartyApproved := false }
    ∧ (swap (swap s A x y B).2 B y x A).1 = none
    ∧ (swap (swap s A x y B).2 B y x A).2.squareOwner x = B
    ∧ (swap (swap s A x y B).2 B y x A).2.squareOwner y = A
    ∧ x ∈ (swap (swap s A x y B).2 B y x A).2.userInventory B
    ∧ y ∈ (swap (swap s A x y B).2 B y x A).2.userInventory A
    ∧ ¬ offerPending (swap (swap s A x y B).2 B y x A).2
        (swapKey A B x y) := by
  have hBA : B ≠ A := Ne.symm hAB
  have hxy : x ≠ y := by
    intro h
    rw [h, hoy] at hox
    exact hAB hox.symm
  have e1 : swap s A x y B =
      (none,
        { s with
          pendingSwaps := upd s.pendingSwaps (swapKey A B x y)
            { requester := A, counterparty := B, requesterSquare := x,
              counterpartySquare := y, counterpartyApproved := false },
          events := s.events ++ [.swapRequested A B x y] }) := by
    simp [swap, hx, hy, hB, hBA, hox, hoy, hnop]
  rw [e1]
  refine ⟨rfl, rfl, upd_eq _ _ _, ?_, ?_, ?_, ?_, ?_, ?_⟩
  · simp [swap, hy, hx, hA, hAB, hoy, hox, upd_eq]
  · simp [swap, hy, hx, hA, hAB, hoy, hox, upd_eq, upd]
  · simp [swap, hy, hx, hA, hAB, hoy, hox, upd_eq, upd, hxy, Ne.symm hxy]
  · simp [swap, hy, hx, hA, hAB, hoy, hox, upd_eq, upd, hBA]
  · simp [swap, hy, hx, hA, hAB, hoy, hox, upd_eq, upd, hBA]
  · simp [swap, hy, hx, hA, hAB, hoy, hox, upd_eq, upd, offerPending,
      emptySwapRequest]

/-- Witness for C2 on the concrete two-user ledger. -/
theorem claim_C2_witness :
    (swap twoUserState 1 "x" "y" 2).1 = none
    ∧ (swap twoUserState 1 "x" "y" 2).2.squareOwner =
        twoUserState.squareOwner
    ∧ (swap twoUserState 1 "x" "y" 2).2.pendingSwaps
        (swapKey 1 2 "x" "y") =
        { requester := 1, counterparty := 2, requesterSquare := "x",
          counterpartySquare := "y", counterpartyApproved := false }
    ∧ (swap (swap twoUserState 1 "x" "y" 2).2 2 "y" "x" 1).1 = none
    ∧ (swap (swap twoUserState 1 "x" "y" 2).2 2 "y" "x" 1).2.squareOwner
        "x" = 2
    ∧ (swap (swap twoUserState 1 "x" "y" 2).2 2 "y" "x" 1).2.squareOwner
        "y" = 1
    ∧ "x" ∈ (swap (swap twoUserState 1 "x" "y" 2).2 2 "y" "x"
        1).2.userInventory 2
    ∧ "y" ∈ (swap (swap twoUserState 1 "x" "y" 2).2 2 "y" "x"
        1).2.userInventory 1
    ∧ ¬ offerPending (swap (swap twoUserState 1 "x" "y" 2).2 2 "y" "x"
        1).2 (swapKey 1 2 "x" "y") :=
  claim_C2_two_call_swap twoUserState 1 2 "x" "y" (by decide) (by decide)
    (by decide) (by decide) (by decide) (by decide) (by decide) (by decide)

/-- Claim C6: after A's offer `swap(x, y, B)`, A's `cancelSwapRequest` on
its fingerprint succeeds and deletes the offer, so B's mirrored call then
records a fresh offer instead of committing; and `cancelSwapRequest` by a
non-requester fails with `NotRequester` and removes nothing. -/
theorem claim_C6_cancel_swap_request (s : State) (A B C : Address)
    (x y : String) (hA : A ≠ 0) (hB : B ≠ 0) (hAB : A ≠ B) (hx : x ≠ "")
    (hy : y ≠ "") (hox : s.squareOwner x = A) (hoy : s.squareOwner y = B)
    (hnop : (s.pendingSwaps (swapKey B A y x)).requester ≠ B)
    (hC : C ≠ A) :
    offerPending (swap s A x y B).2 (swapKey A B x y)
    ∧ (cancelSwapRequest (swap s A x y B).2 A (swapKey A B x y)).1 = none
    ∧ ¬ offerPending
        (cancelSwapRequest (swap s A x y B).2 A (swapKey A B x y)).2
        (swapKey A B x y)
    ∧ (swap (cancelSwapRequest (swap s A x y B).2 A
        (swapKey A B x y)).2 B y x A).1 = none
    ∧ (swap (cancelSwapRequest (swap s A x y B).2 A
        (swapKey A B x y)).2 B y x A).2.squareOwner =
        (cancelSwapRequest (swap s A x y B).2 A
          (swapKey A B x y)).2.squareOwner
    ∧ (swap (cancelSwapRequest (swap s A x y B).2 A
        (swapKey A B x y)).2 B y x A).2.pendingSwaps (swapKey B A y x) =
        { requester := B, counterparty := A, requesterSquare := y,
          counterpartySquare := x, counterpartyApproved := false }
    ∧ (cancelSwapRequest (swap s A x y B).2 C (swapKey A B x y)).1 =
        some .notRequester
    ∧ (cancelSwapRequest (swap s A x y B).2 C (swapKey A B x y)).2 =
        (swap s A x y B).2 := by
  have hBA : B ≠ A := Ne.symm hAB
  have e1 : swap s A x y B =
      (none,
        { s with
          pendingSwaps := upd s.pendingSwaps (swapKey A B x y)
            { requester := A, counterparty := B, requesterSquare := x,
              counterpartySquare := y, counterpartyApproved := false },
          events := s.events ++ [.swapRequested A B x y] }) := by
    simp [swap, hx, hy, hB, hBA, hox, hoy, hnop]
  rw [e1]
  have e2 : cancelSwapRequest
      ({ s with
          pendingSwaps := upd s.pendingSwaps (swapKey A B x y)
            { requester := A, counterparty := B, requesterSquare := x,
              counterpartySquare := y, counterpartyApproved := false },
          events := s.events ++ [.swapRequested A B x y] } : State) A
      (swapKey A B x y) =
      (none,
        { s with
          pendingSwaps := upd (upd s.pendingSwaps (swapKey A B x y)
            { requester := A, counterparty := B, requesterSquare := x,
              counterpartySquare := y, counterpartyApproved := false })
            (swapKey A B x y) emptySwapRequest,
          events := s.events ++ [.swapRequested A B x y] }) := by
    simp [cancelSwapRequest, upd_eq]
  rw [e2]
  refine ⟨?_, rfl, ?_, ?_, ?_, ?_, ?_, ?_⟩
  · simp [offerPending, upd_eq, hA]
  · simp [offerPending, upd_eq, emptySwapRequest]
  · simp [swap, hy, hx, hA, hAB, hoy, hox, upd_eq, emptySwapRequest,
      Ne.symm hA]
  · simp [swap, hy, hx, hA, hAB, hoy, hox, upd_eq, emptySwapRequest,
      Ne.symm hA]
  · simp [swap, hy, hx, hA, hAB, hoy, hox, upd_eq, emptySwapRequest,
      Ne.symm hA]
  · simp [cancelSwapRequest, upd_eq, Ne.symm hC]
  · simp [cancelSwapRequest, upd_eq, Ne.symm hC]

/-- Witness for C6 on the concrete two-user ledger, with user 3 as the
rejected canceller. -/
theorem claim_C6_witness :
    offerPending (swap twoUserState 1 "x" "y" 2).2 (swapKey 1 2 "x" "y")
    ∧ (cancelSwapRequest (swap twoUserState 1 "x" "y" 2).2 1
        (swapKey 1 2 "x" "y")).1 = none
    ∧ ¬ offerPending
        (cancelSwapRequest (swap twoUserState 1 "x" "y" 2).2 1
          (swapKey 1 2 "x" "y")).2 (swapKey 1 2 "x" "y")
    ∧ (swap (cancelSwapRequest (swap twoUserState 1 "x" "y" 2).2 1
        (swapKey 1 2 "x" "y")).2 2 "y" "x" 1).1 = none
    ∧ (swap (cancelSwapRequest (swap twoUserState 1 "x" "y" 2).2 1
        (swapKey 1 2 "x" "y")).2 2 "y" "x" 1).2.squareOwner =
        (cancelSwapRequest (swap twoUserState 1 "x" "y" 2).2 1
          (swapKey 1 2 "x" "y")).2.squareOwner
    ∧ (swap (cancelSwapRequest (swap twoUserState 1 "x" "y" 2).2 1
        (swapKey 1 2 "x" "y")).2 2 "y" "x" 1).2.pendingSwaps
        (swapKey 2 1 "y" "x") =
        { requester := 2, counterparty := 1, requesterSquare := "y",
          counterpartySquare := "x", counterpartyApproved := false }
    ∧ (cancelSwapRequest (swap twoUserState 1 "x" "y" 2).2 3
        (swapKey 1 2 "x" "y")).1 = some .notRequester
    ∧ (cancelSwapRequest (swap twoUserState 1 "x" "y" 2).2 3
        (swapKey 1 2 "x" "y")).2 = (swap twoUserState 1 "x" "y" 2).2 :=
  claim_C6_cancel_swap_request twoUserState 1 2 3 "x" "y" (by decide)
    (by decide) (by decide) (by decide) (by decide) (by decide) (by decide)
    (by decide) (by decide)

end LandRegistry
